import Mathlib

/-!
Verification development for the dual-task labeling experiment repository.

The Python modules `dualtask_labeling_randomization.py` and
`dualtask_labeling_path_check.py` are shallowly embedded below:

* pure string parsing (`extract_filename_info`) becomes a pure Lean function
  over `String`, with Python list indexing (which raises `IndexError` out of
  range) modelled by `Option`;
* the constraint randomizer (`constraint_randomization`) becomes a pure
  function; the call to `random.shuffle` is modelled by an explicit
  `shuffle` function parameter, whose defining property (it permutes its
  input in place) enters theorems as the hypothesis
  `(shuffle input).Perm input`;
* file-system interaction (`os.walk`, CSV read/write, `os.path.exists`,
  `os.mkdir`) becomes explicit state passing over a record of functions
  (`FS` for row files, `DirState` for directories).  `os.makedirs` calls in
  `load_and_randomize` only affect directories, never the row files the
  claims are about, so they are not tracked by `FS`.
-/

/-! ## Python string primitives

Python splits, membership tests and suffix tests are modelled on `List Char`
by structural recursion so that every definition reduces in the kernel. -/

/-- Model of Python membership `pat in s` restricted to character lists:
true when `pat` occurs as a contiguous sublist. -/
def subOccurs (pat : List Char) : List Char → Bool
  | [] => pat.isEmpty
  | c :: rest => pat.isPrefixOf (c :: rest) || subOccurs pat rest

/-- Model of Python `s.split(sep)` for a single-character separator `sep`:
`splitOnChar c l` cuts `l` at every occurrence of `c`.  Like Python,
the empty string splits to one empty piece. -/
def splitOnChar (c : Char) : List Char → List (List Char)
  | [] => [[]]
  | x :: rest =>
    let r := splitOnChar c rest
    if x = c then [] :: r
    else
      match r with
      | [] => [[x]]
      | h :: t => (x :: h) :: t

/-- Model of Python `s.split(pat)[0]` for a non-empty `pat`: the characters
strictly before the first occurrence of `pat` (all of `l` when `pat` does
not occur). -/
def takeBeforePat (pat : List Char) : List Char → List Char
  | [] => []
  | x :: rest => if pat.isPrefixOf (x :: rest) then [] else x :: takeBeforePat pat rest

/-- Python `pat in s` on strings. -/
def pyContains (s pat : String) : Bool := subOccurs pat.toList s.toList

/-- Python `s.split("_")` on strings. -/
def pySplitUnderscore (s : String) : List String :=
  (splitOnChar (Char.ofNat 95) s.toList).map (fun cs => String.mk cs)

/-- Python `s.split(".wav")[0]`, the suffix-strip used by the extractor. -/
def beforeWav (s : String) : String := String.mk (takeBeforePat ".wav".toList s.toList)

/-- Python `s.endswith(suffix)`. -/
def pyEndsWith (s suffix : String) : Bool := suffix.toList.isSuffixOf s.toList

/-! ## Data model -/

/-- The record produced by `extract_filename_info` in
`dualtask_labeling_randomization.py`: the `info` dictionary with its seven
string-valued keys, in the order the source assigns them. -/
structure StimulusRecord where
  filename : String
  exp : String
  speaker : String
  trial : String
  stimulus_origin : String
  name_stim : String
  condition : String
deriving DecidableEq, Repr

/-! ## Attribute extractor -/

/-- Embedding of `extract_filename_info` (lines 45-84 of
`dualtask_labeling_randomization.py`).  Python list indexing `parts[i]`
raises `IndexError` when out of range, so the embedding returns `Option`;
`parts[-1]` is total here because `split` never returns an empty list, and
it is modelled by `getLastD`.  Slices such as `parts[7:]` and `parts[2:6]`
truncate silently in Python, matching `drop`/`take`. -/
def extract_filename_info (filename : String) : Option StimulusRecord :=
  let parts := pySplitUnderscore filename
  if pyContains filename "single" then do
    let e ← parts[0]?
    let sp ← parts[1]?
    let tr ← parts[4]?
    let p2 ← parts[2]?
    let p3 ← parts[3]?
    some { filename := filename, exp := e, speaker := sp, trial := tr,
           stimulus_origin := String.intercalate "_" [p2, p3],
           name_stim := beforeWav (String.intercalate "_" (parts.drop 5)),
           condition := beforeWav (parts.getLastD "") }
  else if pyContains filename "gating" then do
    let e ← parts[0]?
    let sp ← parts[1]?
    let tr ← parts[3]?
    let p2 ← parts[2]?
    some { filename := filename, exp := e, speaker := sp, trial := tr,
           stimulus_origin := String.intercalate "_" [e, p2],
           name_stim := beforeWav (String.intercalate "_" (parts.drop 4)),
           condition := beforeWav (parts.getLastD "") }
  else do
    let e ← parts[0]?
    let sp ← parts[1]?
    let tr ← parts[6]?
    some { filename := filename, exp := e, speaker := sp, trial := tr,
           stimulus_origin := String.intercalate "_" ((parts.drop 2).take 4),
           name_stim := beforeWav (String.intercalate "_" (parts.drop 7)),
           condition := beforeWav (parts.getLastD "") }

/-! ## Constraint randomizer

Embedding of `constraint_randomization` (lines 87-120).  The body of the
`while` loop scans the shuffled pool for the first record whose four
attribute counts in the output so far are below the caps; `list.remove`
deletes the first element equal to the one selected, which is the scanned
position itself (an earlier equal element would have identical attributes
and would have been selected first), so selection and removal are fused in
`findFirstValid`.  The loop runs one iteration per pool element, so it is
embedded as a fuel-indexed structural recursion started with fuel
`pool.length`; the guard `while stimuli_copy` and the scan failure both
yield `out ++ pool` (equal to `out` when the pool is empty), exactly the
two ways the Python loop stops. -/

/-- The four-cap admissibility test from lines 105-110: counts of the
candidate record attributes among the records already placed. -/
def okToPlace (out : List StimulusRecord) (s : StimulusRecord) : Bool :=
  decide (out.countP (fun stim => stim.condition == s.condition) < 4) &&
  decide (out.countP (fun stim => stim.name_stim == s.name_stim) < 3) &&
  decide (out.countP (fun stim => stim.speaker == s.speaker) < 3) &&
  decide (out.countP (fun stim => stim.stimulus_origin == s.stimulus_origin) < 4)

/-- The inner `for` scan of lines 104-114: the first pool record passing
`okToPlace`, together with the pool with that occurrence removed (order
preserved).  `none` models `valid_stimulus_found = False`. -/
def findFirstValid (out : List StimulusRecord) :
    List StimulusRecord → Option (StimulusRecord × List StimulusRecord)
  | [] => none
  | s :: rest =>
    if okToPlace out s then some (s, rest)
    else
      match findFirstValid out rest with
      | some (t, rest2) => some (t, s :: rest2)
      | none => none

/-- The `while` loop of lines 102-119, indexed by an iteration budget.
With fuel `pool.length` this is extensionally the Python loop: each
successful scan consumes one pool element and one unit of fuel, and both
stopping cases return `out ++ pool`. -/
def constraintLoop : Nat → List StimulusRecord → List StimulusRecord → List StimulusRecord
  | 0, out, pool => out ++ pool
  | fuel + 1, out, pool =>
    match findFirstValid out pool with
    | some (s, rest) => constraintLoop fuel (out ++ [s]) rest
    | none => out ++ pool

/-- Embedding of `constraint_randomization`: `random.shuffle` on the copy
of the input is modelled by the explicit `shuffle` parameter, then the
greedy loop runs over the shuffled pool. -/
def constraint_randomization (shuffle : List StimulusRecord → List StimulusRecord)
    (stimulus_data : List StimulusRecord) : List StimulusRecord :=
  let stimuli_copy := shuffle stimulus_data
  constraintLoop stimuli_copy.length [] stimuli_copy

/-- Embedding of `randomize_stimuli` (lines 123-142): extract a record per
filename (failing if any extraction fails), randomize, and project the
filenames back out. -/
def randomize_stimuli (shuffle : List StimulusRecord → List StimulusRecord)
    (stimuli_files : List String) : Option (List String) :=
  (stimuli_files.mapM extract_filename_info).map
    (fun stimulus_data =>
      (constraint_randomization shuffle stimulus_data).map (fun d => d.filename))

/-! ## File-system model and loader -/

/-- Abstract file store seen by the loader: `walk_files p` is the list of
file names `os.walk(p)` enumerates beneath `p` (in walk order), and
`read_rows p` is the list of CSV rows at path `p`, or `none` when
`os.path.exists(p)` is false.  Rows written by this program always have
exactly one field, so CSV quoting plays no role. -/
structure FS where
  walk_files : String → List String
  read_rows : String → Option (List (List String))

/-- Writing a CSV file: afterwards the path exists and holds the given
rows; every other path is untouched. -/
def FS.write (fs : FS) (path : String) (rows : List (List String)) : FS :=
  { fs with read_rows := fun p => if p = path then some rows else fs.read_rows p }

/-- Embedding of `load_stimuli` (lines 15-42).  The Python guard is
`if progress_file and os.path.exists(progress_file)`: the argument must be
given (not `None`, modelled by `Option`), truthy (a non-empty string), and
name an existing file; only then is the filter applied.  `row[0]` on a
CSV row is modelled by `headD ""` (the rows of a progress file written by
this program are never empty). -/
def load_stimuli (fs : FS) (stimuli_path : String)
    (progress_file : Option String := none) : List String :=
  let all_stimuli := (fs.walk_files stimuli_path).filter (fun file => pyEndsWith file ".wav")
  match progress_file with
  | none => all_stimuli
  | some pf =>
    if pf = "" then all_stimuli
    else
      match fs.read_rows pf with
      | none => all_stimuli
      | some rows =>
        let labeled_stimuli := rows.map (fun row => row.headD "")
        all_stimuli.filter (fun stimulus => !(labeled_stimuli.contains stimulus))

/-- The progress-file path built on lines 159-162:
`results/<labeler>/<labeler>_<phase>_progress.csv` (POSIX `os.path.join`). -/
def progressFilePath (labeler phase : String) : String :=
  "results/" ++ labeler ++ "/" ++ (labeler ++ "_" ++ phase ++ "_progress.csv")

/-- The randomized-order path built on lines 170-174:
`randomization_lists/<labeler>/<phase>_randomized_stimuli.csv`. -/
def randomizedFilePath (labeler phase : String) : String :=
  "randomization_lists/" ++ labeler ++ "/" ++ (phase ++ "_randomized_stimuli.csv")

/-- Embedding of `load_and_randomize` (lines 145-197).  The result is the
returned pair plus the file store after the call; `none` models an
uncaught `IndexError` from a malformed filename reaching the extractor.
Note the asymmetry faithfully carried over from the source: the writer on
lines 190-194 emits no header row (the header line is commented out), yet
the reader on lines 179-182 skips the first row (`next(reader, None)`),
modelled by `drop 1`. -/
def load_and_randomize (fs : FS) (shuffle : List StimulusRecord → List StimulusRecord)
    (stimuli_path labeler phase : String) : Option (List String × String × FS) :=
  let progress_file_path := progressFilePath labeler phase
  if phase = "practice" then
    some (load_stimuli fs stimuli_path (some progress_file_path), progress_file_path, fs)
  else
    let randomized_file_path := randomizedFilePath labeler phase
    match fs.read_rows randomized_file_path with
    | some rows =>
      some ((rows.drop 1).map (fun row => row.headD ""), progress_file_path, fs)
    | none => do
      let stimuli_files := load_stimuli fs stimuli_path none
      let randomized_stimuli ← randomize_stimuli shuffle stimuli_files
      some (randomized_stimuli, progress_file_path,
            fs.write randomized_file_path (randomized_stimuli.map (fun s => [s])))

/-! ## Directory checks -/

/-- Abstract directory store for `dualtask_labeling_path_check.py`:
`exists_dir p` is `os.path.exists(p)`. -/
structure DirState where
  exists_dir : String → Bool

/-- Model of `os.mkdir`: the path now exists, others are unchanged.  The
source only calls it after checking non-existence; failure modes of
`os.mkdir` itself (missing parents, permissions) are I/O faults the spec
leaves out of scope and are not modelled. -/
def DirState.mkdir (d : DirState) (p : String) : DirState :=
  ⟨fun q => q == p || d.exists_dir q⟩

/-- Embedding of `check_config_paths` (lines 12-53 of
`dualtask_labeling_path_check.py`).  A raised `Exception` becomes
`Except.error` paired with the directory state at the raise; the normal
return is `Except.ok ()` paired with the final state.  Parameter order is
the source order. -/
def check_config_paths (d : DirState)
    (test_stimuli_path practice_stimuli_path results_path pics_path random_path : String) :
    Except String Unit × DirState :=
  if !(d.exists_dir test_stimuli_path) then
    (Except.error "No input folder detected. Please make sure that test_stimuli_path is correctly set in the configurations", d)
  else if !(d.exists_dir practice_stimuli_path) then
    (Except.error "No input folder detected. Please make sure that practice_stimuli_path is correctly set in the configurations", d)
  else if !(d.exists_dir pics_path) then
    (Except.error "No pics folder detected. Please make sure that pics_path is correctly set in the configurations", d)
  else
    let d1 := if !(d.exists_dir results_path) then d.mkdir results_path else d
    let d2 := if !(d1.exists_dir random_path) then d1.mkdir random_path else d1
    (Except.ok (), d2)

/-! ## Concrete sample data used by witnesses and the resume scenario -/

def fileA : String := "expA_spk1_o1_o2_o3_o4_3_wordA_cond1.wav"

def fileB : String := "expA_spk2_o1_o2_o3_o4_4_wordB_cond2.wav"

/-- The record `extract_filename_info` produces for `fileA`. -/
def recA : StimulusRecord :=
  ⟨fileA, "expA", "spk1", "3", "o1_o2_o3_o4", "wordA_cond1", "cond1"⟩

/-- The record `extract_filename_info` produces for `fileB`. -/
def recB : StimulusRecord :=
  ⟨fileB, "expA", "spk2", "4", "o1_o2_o3_o4", "wordB_cond2", "cond2"⟩

/-- A store holding the two sample stimuli and no CSV files yet. -/
def fsDemo : FS := ⟨fun _ => [fileA, fileB], fun _ => none⟩

/-- The store after the first test-phase call for labeler `lab`: the
randomized order has been persisted, without a header row. -/
def fsDemo1 : FS := FS.write fsDemo (randomizedFilePath "lab" "test") [[fileA], [fileB]]

/-- Five records sharing one condition with otherwise distinct attributes,
for the fallback scenario. -/
def w1 : StimulusRecord := ⟨"w1.wav", "e", "s1", "1", "g1", "n1", "X"⟩

def w2 : StimulusRecord := ⟨"w2.wav", "e", "s2", "2", "g2", "n2", "X"⟩

def w3 : StimulusRecord := ⟨"w3.wav", "e", "s3", "3", "g3", "n3", "X"⟩

def w4 : StimulusRecord := ⟨"w4.wav", "e", "s4", "4", "g4", "n4", "X"⟩

def w5 : StimulusRecord := ⟨"w5.wav", "e", "s5", "5", "g5", "n5", "X"⟩

/-- A record distinct from `w1` in every constrained attribute. -/
def wY : StimulusRecord := ⟨"w6.wav", "e", "s6", "6", "g6", "n6", "Y"⟩

/-- A directory state in which only the three mandatory directories exist. -/
def dDemo : DirState := ⟨fun q => q == "stimuli" || q == "practice" || q == "pics"⟩

/-! ## Helper lemmas about the randomizer loop -/

theorem findFirstValid_perm (out : List StimulusRecord) :
    ∀ (pool : List StimulusRecord) (s : StimulusRecord) (rest : List StimulusRecord),
      findFirstValid out pool = some (s, rest) → List.Perm pool (s :: rest) := by
  intro pool
  induction pool with
  | nil => intro s rest h; simp [findFirstValid] at h
  | cons x xs ih =>
    intro s rest h
    by_cases hok : okToPlace out x
    · simp [findFirstValid, hok] at h
      obtain ⟨rfl, rfl⟩ := h
      exact List.Perm.refl _
    · simp [findFirstValid, hok] at h
      match hxs : findFirstValid out xs with
      | none => rw [hxs] at h; simp at h
      | some (t, rest2) =>
        rw [hxs] at h
        simp at h
        obtain ⟨rfl, rfl⟩ := h
        have hperm := ih t rest2 hxs
        exact (hperm.cons x).trans (List.Perm.swap _ _ _)

theorem findFirstValid_length (out : List StimulusRecord)
    (pool : List StimulusRecord) (s : StimulusRecord) (rest : List StimulusRecord)
    (h : findFirstValid out pool = some (s, rest)) : rest.length + 1 = pool.length := by
  have := (findFirstValid_perm out pool s rest h).length_eq
  simpa using this.symm

theorem constraintLoop_perm :
    ∀ (fuel : Nat) (out pool : List StimulusRecord),
      List.Perm (constraintLoop fuel out pool) (out ++ pool) := by
  intro fuel
  induction fuel with
  | zero => intro out pool; exact List.Perm.refl _
  | succ n ih =>
    intro out pool
    match hfv : findFirstValid out pool with
    | none => simp [constraintLoop, hfv]
    | some (s, rest) =>
      have h1 : List.Perm (constraintLoop n (out ++ [s]) rest) ((out ++ [s]) ++ rest) :=
        ih (out ++ [s]) rest
      have h2 : (out ++ [s]) ++ rest = out ++ (s :: rest) := by simp
      have h3 : List.Perm (out ++ (s :: rest)) (out ++ pool) :=
        (findFirstValid_perm out pool s rest hfv).symm.append_left out
      simp only [constraintLoop, hfv]
      exact (h2 ▸ h1).trans h3

theorem constraintLoop_fuel_sufficient :
    ∀ (fuel : Nat) (pool out : List StimulusRecord), pool.length ≤ fuel →
      constraintLoop fuel out pool = constraintLoop pool.length out pool := by
  intro fuel
  induction fuel with
  | zero =>
    intro pool out h
    have : pool.length = 0 := Nat.le_zero.mp h
    rw [this]
  | succ n ih =>
    intro pool out h
    match hlen : pool.length with
    | 0 =>
      have hnil : pool = [] := List.length_eq_zero.mp hlen
      subst hnil
      simp [constraintLoop, findFirstValid]
    | k + 1 =>
      match hfv : findFirstValid out pool with
      | none => simp [constraintLoop, hfv]
      | some (s, rest) =>
        have hrest : rest.length = k := by
          have := findFirstValid_length out pool s rest hfv
          omega
        have hle : rest.length ≤ n := by omega
        simp only [constraintLoop, hfv]
        rw [ih rest (out ++ [s]) hle, hrest]


theorem constraintLoopStep (fuel : Nat) (out pool : List StimulusRecord)
    (s : StimulusRecord) (rest : List StimulusRecord)
    (h : findFirstValid out pool = some (s, rest)) :
    constraintLoop (fuel + 1) out pool = constraintLoop fuel (out ++ [s]) rest := by
  simp [constraintLoop, h]

theorem constraintLoopNone (fuel : Nat) (out pool : List StimulusRecord)
    (h : findFirstValid out pool = none) :
    constraintLoop (fuel + 1) out pool = out ++ pool := by
  simp [constraintLoop, h]

theorem countP_le_one_of_pairwise_ne (f : StimulusRecord → String) :
    ∀ (l : List StimulusRecord), l.Pairwise (fun a b => f a ≠ f b) →
      ∀ (v : String), l.countP (fun r => f r == v) ≤ 1 := by
  intro l
  induction l with
  | nil => intro _ v; simp
  | cons a t ih =>
    intro h v
    rw [List.pairwise_cons] at h
    obtain ⟨ha, ht⟩ := h
    rw [List.countP_cons]
    by_cases hv : f a = v
    · have hzero : t.countP (fun r => f r == v) = 0 := by
        rw [List.countP_eq_zero]
        intro b hb
        have : f a ≠ f b := ha b hb
        simp only [beq_iff_eq]
        intro hfb
        exact this (by rw [hv, hfb])
      simp [hzero, hv]
    · have : (f a == v) = false := by simpa using hv
      simp [this]
      exact ih ht v

/-! ## Claims -/

/-- C2 counterexample: on the 9-segment default-family identifier the code
computes `name_stim` from `parts[7:]` joined and suffix-stripped, which is
"wordA_cond1", not "wordA" as the claim states. -/
theorem extract_filename_info_name_stim_not_wordA :
    ¬ ((extract_filename_info "expA_spk1_o1_o2_o3_o4_3_wordA_cond1.wav").map
        StimulusRecord.name_stim = some "wordA") := by decide

/-- C2 (amended): for the default-family identifier
"expA_spk1_o1_o2_o3_o4_3_wordA_cond1.wav" (9 underscore-separated
segments, containing neither "single" nor "gating"),
`extract_filename_info` returns trial "3", stimulus_origin "o1_o2_o3_o4",
name_stim "wordA_cond1" (the join of parts 7 onward with ".wav" stripped),
and condition "cond1". -/
theorem extract_filename_info_default_family :
    extract_filename_info "expA_spk1_o1_o2_o3_o4_3_wordA_cond1.wav" =
      some { filename := "expA_spk1_o1_o2_o3_o4_3_wordA_cond1.wav",
             exp := "expA", speaker := "spk1", trial := "3",
             stimulus_origin := "o1_o2_o3_o4",
             name_stim := "wordA_cond1", condition := "cond1" } := by decide

/-- C3: `constraint_randomization` returns a permutation of its input:
whenever the internal shuffle permutes the input (the defining property of
`random.shuffle`), the result is a permutation of the input, hence has the
same length and the same multiset of records. -/
theorem constraint_randomization_perm
    (shuffle : List StimulusRecord → List StimulusRecord) (input : List StimulusRecord)
    (hshuffle : List.Perm (shuffle input) input) :
    List.Perm (constraint_randomization shuffle input) input := by
  have h := constraintLoop_perm (shuffle input).length [] (shuffle input)
  simp only [List.nil_append] at h
  exact h.trans hshuffle

theorem constraint_randomization_perm_witness :
    List.Perm (id [recA, recB]) [recA, recB] ∧
    List.Perm (constraint_randomization id [recA, recB]) [recA, recB] :=
  ⟨by decide, constraint_randomization_perm id [recA, recB] (by decide)⟩

/-- C8: the loop of `constraint_randomization` terminates within `|input|`
iterations: every successful scan removes exactly one record from the pool,
and running the fuel-indexed loop with any iteration budget of at least the
pool size yields the value `constraint_randomization` computes (so extra
budget is never consumed; the no-match case appends the whole pool and
stops). -/
theorem constraint_randomization_terminates
    (shuffle : List StimulusRecord → List StimulusRecord) (input : List StimulusRecord)
    (fuel : Nat) (hfuel : (shuffle input).length ≤ fuel) :
    (∀ (out pool : List StimulusRecord) (s : StimulusRecord) (rest : List StimulusRecord),
        findFirstValid out pool = some (s, rest) → rest.length + 1 = pool.length) ∧
    constraintLoop fuel [] (shuffle input) = constraint_randomization shuffle input := by
  constructor
  · exact fun out pool s rest h => findFirstValid_length out pool s rest h
  · exact constraintLoop_fuel_sufficient fuel (shuffle input) [] hfuel

theorem constraint_randomization_terminates_witness :
    (id [recA, recB] : List StimulusRecord).length ≤ 7 ∧
    constraintLoop 7 [] (id [recA, recB]) = constraint_randomization id [recA, recB] :=
  ⟨by decide, (constraint_randomization_terminates id [recA, recB] 7 (by decide)).2⟩

/-- C10: `load_stimuli` with no progress-file argument returns the full
enumerated identifier set (the walked files with extension ".wav"),
unfiltered; the same holds when a progress-file path is given but no file
exists there, so a missing progress file is not an error and filtering
happens only when the file exists. -/
theorem load_stimuli_no_progress_filter (fs : FS) (stimuli_path : String) :
    load_stimuli fs stimuli_path none
        = (fs.walk_files stimuli_path).filter (fun file => pyEndsWith file ".wav") ∧
    ∀ pf : String, fs.read_rows pf = none →
      load_stimuli fs stimuli_path (some pf)
        = (fs.walk_files stimuli_path).filter (fun file => pyEndsWith file ".wav") := by
  constructor
  · rfl
  · intro pf h
    by_cases hpf : pf = ""
    · simp [load_stimuli, hpf]
    · simp [load_stimuli, hpf, h]

theorem load_stimuli_no_progress_filter_witness :
    fsDemo.read_rows "results/lab/lab_practice_progress.csv" = none ∧
    load_stimuli fsDemo "stimuli" (some "results/lab/lab_practice_progress.csv")
      = [fileA, fileB] := by
  refine ⟨rfl, ?_⟩
  rw [(load_stimuli_no_progress_filter fsDemo "stimuli").2
        "results/lab/lab_practice_progress.csv" rfl]
  decide

/-- C6: for the practice phase `load_and_randomize` never randomizes: it
returns exactly `load_stimuli` on the phase progress file (enumeration
order, identifiers already in the progress log filtered out), the store is
unchanged, and the result does not depend on the shuffle at all. -/
theorem load_and_randomize_practice (fs : FS)
    (shuffle : List StimulusRecord → List StimulusRecord) (stimuli_path labeler : String) :
    load_and_randomize fs shuffle stimuli_path labeler "practice" =
      some (load_stimuli fs stimuli_path (some (progressFilePath labeler "practice")),
            progressFilePath labeler "practice", fs) := rfl

/-- C1: the persistence round trip is not idempotent.  With the two sample
stimuli, the first test-phase call computes and persists the order
`[fileA, fileB]`, but the second call returns `[fileB]`: the reader skips
a header row that the writer never wrote, dropping the first stimulus. -/
theorem load_and_randomize_resume_drops_first :
    load_and_randomize fsDemo id "stimuli" "lab" "test" =
      some ([fileA, fileB], progressFilePath "lab" "test", fsDemo1) ∧
    load_and_randomize fsDemo1 id "stimuli" "lab" "test" =
      some ([fileB], progressFilePath "lab" "test", fsDemo1) ∧
    ([fileB] : List String) ≠ [fileA, fileB] :=
  ⟨rfl, rfl, by decide⟩

/-- C5: when the input has at most 4 records whose condition, speaker,
name_stim and stimulus_origin values are pairwise distinct across records,
every prefix of the output of `constraint_randomization` satisfies all
four caps: each condition value occurs fewer than 4 times, each name_stim
value fewer than 3, each speaker value fewer than 3, and each
stimulus_origin value fewer than 4. -/
theorem constraint_randomization_prefix_caps
    (shuffle : List StimulusRecord → List StimulusRecord) (input : List StimulusRecord)
    (hshuffle : List.Perm (shuffle input) input)
    (_hlen : input.length ≤ 4)
    (hcond : input.Pairwise (fun a b => a.condition ≠ b.condition))
    (hname : input.Pairwise (fun a b => a.name_stim ≠ b.name_stim))
    (hspeaker : input.Pairwise (fun a b => a.speaker ≠ b.speaker))
    (horigin : input.Pairwise (fun a b => a.stimulus_origin ≠ b.stimulus_origin)) :
    ∀ p q : List StimulusRecord, constraint_randomization shuffle input = p ++ q →
      ∀ v : String,
        p.countP (fun r => r.condition == v) < 4 ∧
        p.countP (fun r => r.name_stim == v) < 3 ∧
        p.countP (fun r => r.speaker == v) < 3 ∧
        p.countP (fun r => r.stimulus_origin == v) < 4 := by
  intro p q hpq v
  have hperm : List.Perm (constraint_randomization shuffle input) input := by
    have h := constraintLoop_perm (shuffle input).length [] (shuffle input)
    simp only [List.nil_append] at h
    exact h.trans hshuffle
  have key : ∀ f : StimulusRecord → String, input.Pairwise (fun a b => f a ≠ f b) →
      p.countP (fun r => f r == v) ≤ 1 := by
    intro f hf
    have h1 : p.countP (fun r => f r == v) + q.countP (fun r => f r == v)
        = input.countP (fun r => f r == v) := by
      rw [← List.countP_append, ← hpq]
      exact hperm.countP_eq _
    have h2 := countP_le_one_of_pairwise_ne f input hf v
    omega
  have hc : p.countP (fun r => r.condition == v) ≤ 1 := key _ hcond
  have hn : p.countP (fun r => r.name_stim == v) ≤ 1 := key _ hname
  have hs : p.countP (fun r => r.speaker == v) ≤ 1 := key _ hspeaker
  have ho : p.countP (fun r => r.stimulus_origin == v) ≤ 1 := key _ horigin
  exact ⟨by omega, by omega, by omega, by omega⟩

theorem constraint_randomization_prefix_caps_witness :
    ([w1] : List StimulusRecord).countP (fun r => r.condition == "X") < 4 ∧
    ([w1] : List StimulusRecord).countP (fun r => r.name_stim == "X") < 3 ∧
    ([w1] : List StimulusRecord).countP (fun r => r.speaker == "X") < 3 ∧
    ([w1] : List StimulusRecord).countP (fun r => r.stimulus_origin == "X") < 4 :=
  constraint_randomization_prefix_caps id [w1, wY] (by decide) (by decide)
    (by decide) (by decide) (by decide) (by decide) [w1] [wY] (by decide) "X"

/-- C7: for the test phase with no persisted order, `load_and_randomize`
enumerates the full identifier set with no progress filtering
(`load_stimuli ... none`), extracts a record per identifier, runs the
constraint randomizer over the full set, returns the resulting order, and
persists it: afterwards the randomized-order file holds exactly that
order, one identifier per row. -/
theorem load_and_randomize_test_first_call (fs : FS)
    (shuffle : List StimulusRecord → List StimulusRecord) (stimuli_path labeler : String)
    (habsent : fs.read_rows (randomizedFilePath labeler "test") = none)
    (recs : List StimulusRecord)
    (hextract : (load_stimuli fs stimuli_path none).mapM extract_filename_info = some recs) :
    load_and_randomize fs shuffle stimuli_path labeler "test" =
      some ((constraint_randomization shuffle recs).map (fun d => d.filename),
            progressFilePath labeler "test",
            fs.write (randomizedFilePath labeler "test")
              (((constraint_randomization shuffle recs).map (fun d => d.filename)).map
                (fun s => [s]))) ∧
    (fs.write (randomizedFilePath labeler "test")
        (((constraint_randomization shuffle recs).map (fun d => d.filename)).map
          (fun s => [s]))).read_rows (randomizedFilePath labeler "test")
      = some (((constraint_randomization shuffle recs).map (fun d => d.filename)).map
          (fun s => [s])) := by
  constructor
  · have h1 : randomize_stimuli shuffle (load_stimuli fs stimuli_path none) =
        some ((constraint_randomization shuffle recs).map (fun d => d.filename)) := by
      simp only [randomize_stimuli]
      rw [hextract]
      rfl
    simp [load_and_randomize, habsent, h1]
  · simp [FS.write]

theorem load_and_randomize_test_first_call_witness :
    fsDemo.read_rows (randomizedFilePath "lab" "test") = none ∧
    ([fileA, fileB] : List String).mapM extract_filename_info = some [recA, recB] ∧
    load_and_randomize fsDemo id "stimuli" "lab" "test" =
      some ((constraint_randomization id [recA, recB]).map (fun d => d.filename),
            progressFilePath "lab" "test",
            fsDemo.write (randomizedFilePath "lab" "test")
              (((constraint_randomization id [recA, recB]).map (fun d => d.filename)).map
                (fun s => [s]))) :=
  ⟨rfl, by decide,
    (load_and_randomize_test_first_call fsDemo id "stimuli" "lab" rfl [recA, recB]
      (by decide)).1⟩

/-- C9: `check_config_paths` errors exactly when at least one of the
test-stimuli, practice-stimuli or pictures directories is absent; on an
error the directory state is unchanged (the raise happens before any
creation), and when all three exist it returns normally with the results
and randomization-lists directories now existing and every other path
untouched. -/
theorem check_config_paths_spec (d : DirState) (t p r pics rand : String) :
    ((check_config_paths d t p r pics rand).1 ≠ Except.ok () ↔
      (d.exists_dir t = false ∨ d.exists_dir p = false ∨ d.exists_dir pics = false)) ∧
    ((check_config_paths d t p r pics rand).1 ≠ Except.ok () →
      (check_config_paths d t p r pics rand).2 = d) ∧
    (d.exists_dir t = true → d.exists_dir p = true → d.exists_dir pics = true →
      (check_config_paths d t p r pics rand).1 = Except.ok () ∧
      (check_config_paths d t p r pics rand).2.exists_dir r = true ∧
      (check_config_paths d t p r pics rand).2.exists_dir rand = true ∧
      ∀ q : String, q ≠ r → q ≠ rand →
        (check_config_paths d t p r pics rand).2.exists_dir q = d.exists_dir q) := by
  cases ht : d.exists_dir t
  · refine ⟨by simp [check_config_paths, ht], by simp [check_config_paths, ht], ?_⟩
    intro h1 _ _
    exact absurd h1 (by simp)
  · cases hp : d.exists_dir p
    · refine ⟨by simp [check_config_paths, ht, hp], by simp [check_config_paths, ht, hp], ?_⟩
      intro _ h2 _
      exact absurd h2 (by simp)
    · cases hpics : d.exists_dir pics
      · refine ⟨by simp [check_config_paths, ht, hp, hpics],
          by simp [check_config_paths, ht, hp, hpics], ?_⟩
        intro _ _ h3
        exact absurd h3 (by simp)
      · refine ⟨by simp [check_config_paths, ht, hp, hpics],
          by simp [check_config_paths, ht, hp, hpics], ?_⟩
        intro _ _ _
        refine ⟨by simp [check_config_paths, ht, hp, hpics], ?_, ?_, ?_⟩
        · simp only [check_config_paths, ht, hp, hpics]
          split_ifs <;> simp_all [DirState.mkdir]
        · simp only [check_config_paths, ht, hp, hpics]
          split_ifs <;> simp_all [DirState.mkdir]
          all_goals tauto
        · intro q hq1 hq2
          have hqr : (q == r) = false := beq_eq_false_iff_ne.mpr hq1
          have hqrand : (q == rand) = false := beq_eq_false_iff_ne.mpr hq2
          simp only [check_config_paths, ht, hp, hpics]
          split_ifs <;> simp [DirState.mkdir, hqr, hqrand]

theorem check_config_paths_spec_witness :
    (check_config_paths dDemo "stimuli" "practice" "results" "pics" "randomization_lists").1
        = Except.ok () ∧
    (check_config_paths dDemo "stimuli" "practice" "results" "pics"
        "randomization_lists").2.exists_dir "results" = true :=
  ⟨((check_config_paths_spec dDemo "stimuli" "practice" "results" "pics"
        "randomization_lists").2.2 (by decide) (by decide) (by decide)).1,
   ((check_config_paths_spec dDemo "stimuli" "practice" "results" "pics"
        "randomization_lists").2.2 (by decide) (by decide) (by decide)).2.1⟩

/-- C4: for five records sharing one condition value with pairwise distinct
speaker, name_stim and stimulus_origin values, the first four are placed
via the constrained selection path (the scan finds a valid record, in fact
the head of the remaining pool), the fifth is rejected by the condition cap
of 4 so the scan fails and the fallback path appends it, and the output is
the shuffled pool itself: exactly 5 records matching the input multiset.
In general, whenever no pool record satisfies the caps, the loop appends
the entire remaining pool in its current order and terminates. -/
theorem constraint_randomization_fallback_five
    (shuffle : List StimulusRecord → List StimulusRecord) (input : List StimulusRecord)
    (hshuffle : List.Perm (shuffle input) input)
    (hlen : input.length = 5)
    (hcond : ∀ a ∈ input, ∀ b ∈ input, a.condition = b.condition)
    (hspeaker : input.Pairwise (fun a b => a.speaker ≠ b.speaker))
    (hname : input.Pairwise (fun a b => a.name_stim ≠ b.name_stim))
    (horigin : input.Pairwise (fun a b => a.stimulus_origin ≠ b.stimulus_origin)) :
    (∀ (out pool : List StimulusRecord), findFirstValid out pool = none →
        ∀ fuel : Nat, constraintLoop (fuel + 1) out pool = out ++ pool) ∧
    (∀ k : Nat, k < 4 → ∃ s rest,
        findFirstValid ((shuffle input).take k) ((shuffle input).drop k) = some (s, rest) ∧
        (shuffle input).drop k = s :: rest) ∧
    findFirstValid ((shuffle input).take 4) ((shuffle input).drop 4) = none ∧
    constraint_randomization shuffle input = shuffle input ∧
    List.Perm (constraint_randomization shuffle input) input ∧
    (constraint_randomization shuffle input).length = 5 := by
  have hcr : constraint_randomization shuffle input =
      constraintLoop (shuffle input).length [] (shuffle input) := rfl
  rw [hcr]
  generalize hg : shuffle input = sh at hshuffle ⊢
  have hlen5 : sh.length = 5 := by rw [hshuffle.length_eq, hlen]
  have hcond' : ∀ a ∈ sh, ∀ b ∈ sh, a.condition = b.condition := fun a ha b hb =>
    hcond a (hshuffle.mem_iff.mp ha) b (hshuffle.mem_iff.mp hb)
  have hspeaker' : sh.Pairwise (fun a b => a.speaker ≠ b.speaker) :=
    (hshuffle.pairwise_iff (fun h h2 => h h2.symm)).mpr hspeaker
  have hname' : sh.Pairwise (fun a b => a.name_stim ≠ b.name_stim) :=
    (hshuffle.pairwise_iff (fun h h2 => h h2.symm)).mpr hname
  have horigin' : sh.Pairwise (fun a b => a.stimulus_origin ≠ b.stimulus_origin) :=
    (hshuffle.pairwise_iff (fun h h2 => h h2.symm)).mpr horigin
  rcases sh with _ | ⟨a, _ | ⟨b, _ | ⟨c, _ | ⟨d, _ | ⟨e, _ | ⟨x, tl⟩⟩⟩⟩⟩⟩
  · simp at hlen5
  · simp at hlen5
  · simp at hlen5
  · simp at hlen5
  · simp at hlen5
  case cons.cons.cons.cons.cons.nil =>
    have hcab : a.condition = b.condition := hcond' a (by simp) b (by simp)
    have hcac : a.condition = c.condition := hcond' a (by simp) c (by simp)
    have hcad : a.condition = d.condition := hcond' a (by simp) d (by simp)
    have hcae : a.condition = e.condition := hcond' a (by simp) e (by simp)
    have hcbc : b.condition = c.condition := hcond' b (by simp) c (by simp)
    have hcbd : b.condition = d.condition := hcond' b (by simp) d (by simp)
    have hcbe : b.condition = e.condition := hcond' b (by simp) e (by simp)
    have hccd : c.condition = d.condition := hcond' c (by simp) d (by simp)
    have hcce : c.condition = e.condition := hcond' c (by simp) e (by simp)
    have hcde : d.condition = e.condition := hcond' d (by simp) e (by simp)
    simp only [List.pairwise_cons, List.mem_cons, List.not_mem_nil, List.mem_singleton,
      forall_eq_or_imp, forall_eq, and_true, false_implies,
      true_and, IsEmpty.forall_iff] at hspeaker' hname' horigin'
    obtain ⟨⟨sab, sac, sad, sae⟩, ⟨sbc, sbd, sbe⟩, ⟨scd, sce⟩, sde⟩ := hspeaker'
    obtain ⟨⟨nab, nac, nad, nae⟩, ⟨nbc, nbd, nbe⟩, ⟨ncd, nce⟩, nde⟩ := hname'
    obtain ⟨⟨oab, oac, oad, oae⟩, ⟨obc, obd, obe⟩, ⟨ocd, oce⟩, ode⟩ := horigin'
    have k0 : findFirstValid [] [a, b, c, d, e] = some (a, [b, c, d, e]) := by
      simp [findFirstValid, okToPlace]
    have k1 : findFirstValid [a] [b, c, d, e] = some (b, [c, d, e]) := by
      simp [findFirstValid, okToPlace, List.countP_cons, beq_iff_eq, hcab, sab, nab, oab]
    have k2 : findFirstValid [a, b] [c, d, e] = some (c, [d, e]) := by
      simp [findFirstValid, okToPlace, List.countP_cons, beq_iff_eq, hcac, hcbc,
        sac, sbc, nac, nbc, oac, obc]
    have k3 : findFirstValid [a, b, c] [d, e] = some (d, [e]) := by
      simp [findFirstValid, okToPlace, List.countP_cons, beq_iff_eq, hcad, hcbd, hccd,
        sad, sbd, scd, nad, nbd, ncd, oad, obd, ocd]
    have k4 : findFirstValid [a, b, c, d] [e] = none := by
      simp [findFirstValid, okToPlace, List.countP_cons, beq_iff_eq, hcae, hcbe, hcce, hcde]
    have hloop : constraintLoop 5 [] [a, b, c, d, e] = [a, b, c, d, e] :=
      calc constraintLoop 5 [] [a, b, c, d, e]
          = constraintLoop 4 [a] [b, c, d, e] := constraintLoopStep 4 _ _ _ _ k0
        _ = constraintLoop 3 [a, b] [c, d, e] := constraintLoopStep 3 _ _ _ _ k1
        _ = constraintLoop 2 [a, b, c] [d, e] := constraintLoopStep 2 _ _ _ _ k2
        _ = constraintLoop 1 [a, b, c, d] [e] := constraintLoopStep 1 _ _ _ _ k3
        _ = [a, b, c, d] ++ [e] := constraintLoopNone 0 _ _ k4
        _ = [a, b, c, d, e] := rfl
    refine ⟨?_, ?_, ?_, ?_, ?_, ?_⟩
    · intro out pool h fuel
      simp [constraintLoop, h]
    · intro k hk
      interval_cases k
      · exact ⟨a, [b, c, d, e], k0, rfl⟩
      · exact ⟨b, [c, d, e], k1, rfl⟩
      · exact ⟨c, [d, e], k2, rfl⟩
      · exact ⟨d, [e], k3, rfl⟩
    · exact k4
    · exact hloop
    · show List.Perm (constraintLoop 5 [] [a, b, c, d, e]) input
      rw [hloop]
      exact hshuffle
    · show (constraintLoop 5 [] [a, b, c, d, e]).length = 5
      rw [hloop]
      rfl
  · simp at hlen5

theorem constraint_randomization_fallback_five_witness :
    findFirstValid [w1, w2, w3, w4] [w5] = none ∧
    constraint_randomization id [w1, w2, w3, w4, w5] = [w1, w2, w3, w4, w5] ∧
    List.Perm (constraint_randomization id [w1, w2, w3, w4, w5]) [w1, w2, w3, w4, w5] ∧
    (constraint_randomization id [w1, w2, w3, w4, w5]).length = 5 := by
  have h := constraint_randomization_fallback_five id [w1, w2, w3, w4, w5]
    (by decide) (by decide) (by decide) (by decide) (by decide) (by decide)
  exact ⟨h.2.2.1, h.2.2.2.1, h.2.2.2.2.1, h.2.2.2.2.2⟩
